import Mathlib

/-!
Verification model of the TikTok video generation engine in
`src/video/generator.py`: text wrapping (`_wrap_text`), scene planning and
durations (`TikTokVideoGenerator.generate`), slug derivation (`_slugify`),
font resolution (`_find_font` / `_get_font`), and the post-encoding size
check.  Python strings are modelled as `List Char`; the PIL font object is
abstracted to its width measure; filesystem existence and font loading are
oracles passed in as functions.
-/

/-- Python strings, modelled as lists of characters. -/
abbrev Str := List Char

/-- Characters stripped by Python's `str.strip()` (whitespace).  Python strips
all Unicode whitespace; the model covers the ASCII whitespace characters,
which are the only whitespace characters occurring in this development. -/
def pyIsSpace (c : Char) : Bool :=
  c == ' ' || c == '\t' || c == '\n' || c == '\r' || c == '\x0b' || c == '\x0c'

/-- Python's `text.split("\x5cn")` for the single-character separator:
splitting the empty string yields `[""]`, and every newline separates two
(possibly empty) parts. -/
def splitNL : List Char → List (List Char)
  | [] => [[]]
  | c :: rest =>
    if c = '\n' then [] :: splitNL rest
    else
      match splitNL rest with
      | [] => [[c]]
      | p :: ps => (c :: p) :: ps

/-- Python's `str.strip()`: drop whitespace from both ends. -/
def pyStrip (l : List Char) : List Char :=
  ((l.dropWhile pyIsSpace).reverse.dropWhile pyIsSpace).reverse

/-- A PIL `FreeTypeFont`, abstracted to the pixel width that
`font.getbbox(s)` reports for a string `s` (the value `bbox[2] - bbox[0]`
computed by `_wrap_text`). -/
structure TextFont where
  width : List Char → Nat

/-- One step of the inner loop of `_wrap_text` (generator.py lines 242-250):
append the next character to the candidate line, measure, and close the
current line when the measured width exceeds `maxWidth` and the current line
is non-empty. -/
def wrapStep (f : TextFont) (maxWidth : Nat) :
    List (List Char) × List Char → Char → List (List Char) × List Char :=
  fun acc c =>
    let test := acc.2 ++ [c]
    if f.width test > maxWidth ∧ acc.2 ≠ [] then (acc.1 ++ [acc.2], [c])
    else (acc.1, test)

/-- The per-paragraph body of `_wrap_text`: fold the greedy per-character
loop over the paragraph and append the final candidate line if non-empty. -/
def wrapParagraph (f : TextFont) (maxWidth : Nat) (p : List Char) :
    List (List Char) :=
  let r := p.foldl (wrapStep f maxWidth) ([], [])
  if r.2 = [] then r.1 else r.1 ++ [r.2]

/-- The paragraph loop of `_wrap_text`: paragraphs are the newline-split
parts; each is stripped, skipped when empty, and otherwise contributes its
wrapped lines to the accumulated line list. -/
def wrapParas (f : TextFont) (maxWidth : Nat) :
    List (List Char) → List (List Char) → List (List Char)
  | [], lines => lines
  | para :: rest, lines =>
    let p := pyStrip para
    wrapParas f maxWidth rest (if p = [] then lines else lines ++ wrapParagraph f maxWidth p)

/-- `_wrap_text(text, font, max_width)` from generator.py lines 230-254. -/
def wrapText (text : List Char) (f : TextFont) (maxWidth : Nat) :
    List (List Char) :=
  wrapParas f maxWidth (splitNL text) []

/-- A concrete font for witnesses and counterexamples: every character is
10 pixels wide, so a string measures 10 times its length. -/
def tenWide : TextFont := ⟨fun l => 10 * l.length⟩

/-- Python's `re` word characters (`\x5cw`) for the character ranges used in
this development.  With `str` patterns Python 3 defaults to Unicode matching,
so `\x5cw` matches not only ASCII alphanumerics and the underscore but every
Unicode word character — including Hiragana, Katakana, and CJK unified
ideographs.  (This is what makes `_slugify` keep Japanese characters even
though its inline comment claims they are removed.) -/
def pyIsWordChar (c : Char) : Bool :=
  decide (0x61 ≤ c.toNat ∧ c.toNat ≤ 0x7A) ||     -- a-z
  decide (0x41 ≤ c.toNat ∧ c.toNat ≤ 0x5A) ||     -- A-Z
  decide (0x30 ≤ c.toNat ∧ c.toNat ≤ 0x39) ||     -- 0-9
  c == '_' ||
  decide (0x3040 ≤ c.toNat ∧ c.toNat ≤ 0x309F) || -- Hiragana
  decide (0x30A0 ≤ c.toNat ∧ c.toNat ≤ 0x30FF) || -- Katakana
  decide (0x4E00 ≤ c.toNat ∧ c.toNat ≤ 0x9FFF)    -- CJK Unified Ideographs

/-- Python's `str.lower()` restricted to ASCII letters; the CJK characters
appearing in this development are unchanged by `lower()`. -/
def pyLower (c : Char) : Char := c.toLower

/-- `re.sub(r"[\x5cs_]+", "-", s)`: replace every maximal run of whitespace
and underscores by a single hyphen.  The Boolean argument records whether the
previous character was part of such a run. -/
def collapseWSAux : Bool → List Char → List Char
  | _, [] => []
  | inRun, c :: rest =>
    if pyIsSpace c || c == '_' then
      (if inRun then [] else ['-']) ++ collapseWSAux true rest
    else c :: collapseWSAux false rest

/-- Entry point of the run-collapsing substitution (no run is open). -/
def collapseWS (l : List Char) : List Char := collapseWSAux false l

/-- Python's `str.strip("-")`: drop hyphens from both ends. -/
def stripHyphens (l : List Char) : List Char :=
  ((l.dropWhile (· == '-')).reverse.dropWhile (· == '-')).reverse

/-- `_slugify(text, max_len)` from generator.py lines 661-668: lower-case,
keep only word characters / whitespace / hyphens, collapse whitespace and
underscore runs to a hyphen, strip outer hyphens, fall back to the literal
"article" when empty, and cap the length. -/
def slugify (maxLen : Nat) (text : List Char) : List Char :=
  let kept := (text.map pyLower).filter
    (fun c => pyIsWordChar c || pyIsSpace c || c == '-')
  let slug := stripHyphens (collapseWS kept)
  (if slug = [] then ("article").toList else slug).take maxLen

/-- The scene kinds of the generated video, in the order `generate` builds
its clip list: logo/intro, title, one key-point scene per non-empty key
point (carrying its displayed numeral), and the call-to-action. -/
inductive Scene
  | intro
  | title
  | keyPoint (n : Nat)
  | cta
deriving DecidableEq

/-- `SCENE_LOGO_DURATION` (generator.py line 42). -/
def SCENE_LOGO_DURATION : ℚ := 3

/-- `SCENE_TITLE_DURATION` (generator.py line 43). -/
def SCENE_TITLE_DURATION : ℚ := 5

/-- `SCENE_POINT_DURATION` (generator.py line 44). -/
def SCENE_POINT_DURATION : ℚ := 7

/-- `SCENE_CTA_DURATION` (generator.py line 45). -/
def SCENE_CTA_DURATION : ℚ := 3

/-- Duration assigned to each clip in `generate` (lines 594-612). -/
def sceneDuration : Scene → ℚ
  | Scene.intro => SCENE_LOGO_DURATION
  | Scene.title => SCENE_TITLE_DURATION
  | Scene.keyPoint _ => SCENE_POINT_DURATION
  | Scene.cta => SCENE_CTA_DURATION

/-- The caller's `key_points` list object after `generate` returns.  The
loop `while len(key_points) < 3: key_points.append("")` mutates the caller's
list in place; the subsequent `key_points = key_points[:3]` only rebinds the
local name to a fresh slice. -/
def keyPointsAfterCall (kps : List Str) : List Str :=
  kps ++ List.replicate (3 - kps.length) []

/-- The normalized key points `generate` works with internally: the (possibly
padded) caller list, truncated to exactly 3 entries. -/
def normalizeKeyPoints (kps : List Str) : List Str :=
  (keyPointsAfterCall kps).take 3

/-- The scene plan emitted by `generate` (lines 580-612): logo and title
clips, one key-point clip per truthy (non-empty) normalized key point with
its enumerate-derived numeral `i + 1`, and the CTA clip. -/
def scenePlan (keyPoints : List Str) : List Scene :=
  let norm := normalizeKeyPoints keyPoints
  [Scene.intro, Scene.title]
    ++ (norm.enum.filter (fun p => !p.2.isEmpty)).map
        (fun p => Scene.keyPoint (p.1 + 1))
    ++ [Scene.cta]

/-- The scene plan as the specification words it: the fixed order
Intro, Title, KeyPoint(1), KeyPoint(2), KeyPoint(3), CallToAction with
exactly the key-point scenes whose normalized slot is empty omitted. -/
def scenePlanSpec (norm : List Str) : List Scene :=
  [Scene.intro, Scene.title]
    ++ ((List.range 3).filterMap (fun i =>
          if (norm.getD i []).isEmpty then none
          else some (Scene.keyPoint (i + 1))))
    ++ [Scene.cta]

/-- Total planned duration of a scene plan: the sum of the per-clip
durations passed to `ImageClip` (`concatenate_videoclips` adds them; the
fade-in effects act inside each clip's duration). -/
def totalDuration (plan : List Scene) : ℚ := (plan.map sceneDuration).sum

/-- Number of non-empty normalized key points. -/
def nonEmptyKeyPointCount (kps : List Str) : Nat :=
  ((normalizeKeyPoints kps).filter (fun s => !s.isEmpty)).length

/-- The Japanese font candidate list `_JP_FONT_CANDIDATES`
(generator.py lines 86-107). -/
def jpFontCandidates : List String :=
  [("/System/Library/Fonts/ヒラギノ角ゴシック W6.ttc"),
   ("/System/Library/Fonts/ヒラギノ角ゴシック W3.ttc"),
   ("/System/Library/Fonts/ヒラギノ角ゴ ProN W6.otf"),
   ("/Library/Fonts/ヒラギノ角ゴシック W6.ttc"),
   ("/System/Library/Fonts/Hiragino Sans GB.ttc"),
   ("/System/Library/Fonts/ヒラギノ角ゴシック W5.ttc"),
   ("/System/Library/Fonts/ヒラギノ角ゴシック W4.ttc"),
   ("/usr/share/fonts/opentype/noto/NotoSansCJK-Bold.ttc"),
   ("/usr/share/fonts/opentype/noto/NotoSansCJK-Regular.ttc"),
   ("/usr/share/fonts/noto-cjk/NotoSansCJK-Bold.ttc"),
   ("/usr/share/fonts/noto-cjk/NotoSansCJK-Regular.ttc"),
   ("/usr/share/fonts/truetype/noto/NotoSansCJKjp-Bold.otf"),
   ("/usr/share/fonts/truetype/noto/NotoSansCJKjp-Regular.otf"),
   ("C:/Windows/Fonts/YuGothB.ttc"),
   ("C:/Windows/Fonts/YuGothM.ttc"),
   ("C:/Windows/Fonts/meiryo.ttc")]

/-- The English font candidate list `_EN_FONT_CANDIDATES`
(generator.py lines 110-120). -/
def enFontCandidates : List String :=
  [("/System/Library/Fonts/Helvetica.ttc"),
   ("/System/Library/Fonts/SFPro.ttf"),
   ("/Library/Fonts/Arial Bold.ttf"),
   ("/usr/share/fonts/truetype/dejavu/DejaVuSans-Bold.ttf"),
   ("/usr/share/fonts/truetype/liberation/LiberationSans-Bold.ttf"),
   ("C:/Windows/Fonts/arialbd.ttf")]

/-- `_find_font(candidates)` (lines 123-128): the first candidate path that
exists on the filesystem, where existence is the oracle `fsExists`. -/
def findFont (fsExists : String → Bool) (candidates : List String) :
    Option String :=
  candidates.find? fsExists

/-- The font handles `_get_font` can return: a truetype font loaded from a
path at a size, or the PIL built-in fallback from `load_default()`. -/
inductive FontHandle
  | truetype (path : String) (size : Nat)
  | fallback
deriving DecidableEq

/-- The font cache `_FONT_CACHE`, as an association list.  (`_get_font`
never stores `None`, so values are plain handles.) -/
abbrev FontCache := List (String × FontHandle)

/-- The cache key `f"jp_\x7bsize\x7d_\x7bbold\x7d"` built by `_get_font`
(line 133); Python renders the Boolean as `True` / `False`. -/
def fontCacheKey (size : Nat) (bold : Bool) : String :=
  ("jp_") ++ toString size ++ ("_") ++ (if bold then ("True") else ("False"))

/-- `_get_font(size, bold)` (lines 131-154): return the cached handle if
present; otherwise take the first existing Japanese candidate, then the
first existing English candidate; if a path was found and loads (oracle
`loadOk`), cache and return the truetype handle; otherwise cache and return
the built-in fallback.  The function is total: no branch raises. -/
def getFont (fsExists loadOk : String → Bool) (cache : FontCache)
    (size : Nat) (bold : Bool) : FontHandle × FontCache :=
  let key := fontCacheKey size bold
  match cache.lookup key with
  | some f => (f, cache)
  | none =>
    let fontPath :=
      match findFont fsExists jpFontCandidates with
      | some p => some p
      | none => findFont fsExists enFontCandidates
    match fontPath with
    | some p =>
      if loadOk p then
        (FontHandle.truetype p size, (key, FontHandle.truetype p size) :: cache)
      else (FontHandle.fallback, (key, FontHandle.fallback) :: cache)
    | none => (FontHandle.fallback, (key, FontHandle.fallback) :: cache)

/-- A filesystem oracle on which exactly one font file exists: a
Gothic-named CJK font under a well-known font directory that is not in
either candidate list. -/
def scanOracle : String → Bool :=
  fun s => s == ("/usr/share/fonts/NotoSansGothic-Bold.ttc")

/-- A filesystem oracle on which exactly the first Japanese candidate
exists. -/
def fsHiragino : String → Bool :=
  fun s => s == ("/System/Library/Fonts/ヒラギノ角ゴシック W6.ttc")

/-- A filesystem oracle on which exactly one English candidate exists and no
Japanese candidate does. -/
def fsDejaVu : String → Bool :=
  fun s => s == ("/usr/share/fonts/truetype/dejavu/DejaVuSans-Bold.ttf")

/-- The byte ceiling behind the TikTok warning in `generate` (line 648):
`file_size_mb > 50` with `file_size_mb = size / (1024 * 1024)`. -/
def fileSizeMB (bytes : Nat) : ℚ := (bytes : ℚ) / (1024 * 1024)

/-- The tail of `generate` after encoding (lines 639-654): on encoder
success it measures the written size, computes the over-ceiling warning
flag, and returns the output path; an encoder failure propagates. -/
def generateFinalize (path : List Char) (encodeResult : Except String Nat) :
    Except String (List Char × Bool) :=
  match encodeResult with
  | Except.error e => Except.error e
  | Except.ok bytes => Except.ok (path, decide (50 < fileSizeMB bytes))

/-!
Helper lemmas about the wrapping loop, the newline split, normalization,
and scene durations.
-/

/-- Invariant of the greedy per-character fold: every closed line is
non-empty and either fits in `w` or is a single character, and the open
candidate line is empty, a single character, or fits in `w`. -/
theorem wrapFold_inv (f : TextFont) (w : Nat) :
    ∀ (p : List Char) (lines : List (List Char)) (cur : List Char),
    (∀ l ∈ lines, l ≠ [] ∧ (l.length = 1 ∨ f.width l ≤ w)) →
    (cur = [] ∨ cur.length = 1 ∨ f.width cur ≤ w) →
    (∀ l ∈ (p.foldl (wrapStep f w) (lines, cur)).1,
        l ≠ [] ∧ (l.length = 1 ∨ f.width l ≤ w)) ∧
    ((p.foldl (wrapStep f w) (lines, cur)).2 = [] ∨
      (p.foldl (wrapStep f w) (lines, cur)).2.length = 1 ∨
      f.width (p.foldl (wrapStep f w) (lines, cur)).2 ≤ w) := by
  intro p
  induction p with
  | nil => exact fun lines cur h1 h2 => ⟨h1, h2⟩
  | cons c rest ih =>
    intro lines cur h1 h2
    simp only [List.foldl_cons]
    by_cases hc : f.width (cur ++ [c]) > w ∧ cur ≠ []
    · have hstep : wrapStep f w (lines, cur) c = (lines ++ [cur], [c]) := by
        simp [wrapStep, hc]
      rw [hstep]
      apply ih
      · intro l hl
        rcases List.mem_append.mp hl with h | h
        · exact h1 l h
        · have hl' : l = cur := by simpa using h
          subst hl'
          refine ⟨hc.2, ?_⟩
          rcases h2 with h2 | h2
          · exact absurd h2 hc.2
          · exact h2
      · exact Or.inr (Or.inl rfl)
    · have hstep : wrapStep f w (lines, cur) c = (lines, cur ++ [c]) := by
        simp only [wrapStep]
        rw [if_neg hc]
      rw [hstep]
      apply ih _ _ h1
      by_cases hw : f.width (cur ++ [c]) ≤ w
      · exact Or.inr (Or.inr hw)
      · have hcur : cur = [] := by
          by_contra hne
          exact hc ⟨Nat.lt_of_not_le hw, hne⟩
        subst hcur
        exact Or.inr (Or.inl rfl)

/-- Every line produced for one paragraph is non-empty and either fits or is
a single character. -/
theorem wrapParagraph_mem (f : TextFont) (w : Nat) (p : List Char) :
    ∀ l ∈ wrapParagraph f w p, l ≠ [] ∧ (l.length = 1 ∨ f.width l ≤ w) := by
  intro l hl
  have h := wrapFold_inv f w p [] [] (by intro l hl; cases hl) (Or.inl rfl)
  unfold wrapParagraph at hl
  by_cases hr : (p.foldl (wrapStep f w) ([], [])).2 = []
  · rw [if_pos hr] at hl
    exact h.1 l hl
  · rw [if_neg hr] at hl
    rcases List.mem_append.mp hl with hm | hm
    · exact h.1 l hm
    · have hl' : l = (p.foldl (wrapStep f w) ([], [])).2 := by simpa using hm
      subst hl'
      refine ⟨hr, ?_⟩
      rcases h.2 with h2 | h2
      · exact absurd h2 hr
      · exact h2

/-- A property holding for every line of every wrapped paragraph holds for
every line accumulated by the paragraph loop. -/
theorem wrapParas_mem (f : TextFont) (w : Nat) (P : List Char → Prop)
    (hP : ∀ p l, l ∈ wrapParagraph f w p → P l) :
    ∀ (paras : List (List Char)) (lines : List (List Char)),
    (∀ l ∈ lines, P l) → ∀ l ∈ wrapParas f w paras lines, P l := by
  intro paras
  induction paras with
  | nil => intro lines h l hl; exact h l hl
  | cons para rest ih =>
    intro lines h l hl
    simp only [wrapParas] at hl
    by_cases hp : pyStrip para = []
    · rw [if_pos hp] at hl
      exact ih lines h l hl
    · rw [if_neg hp] at hl
      refine ih _ ?_ l hl
      intro l' hl'
      rcases List.mem_append.mp hl' with hm | hm
      · exact h l' hm
      · exact hP _ l' hm

/-- Every line returned by `wrapText` is non-empty and either fits in the
width budget or is a single character. -/
theorem wrapText_mem (f : TextFont) (w : Nat) (t : List Char) :
    ∀ l ∈ wrapText t f w, l ≠ [] ∧ (l.length = 1 ∨ f.width l ≤ w) := by
  intro l hl
  exact wrapParas_mem f w _ (fun p => wrapParagraph_mem f w p)
    (splitNL t) [] (by intro l hl; cases hl) l hl

/-- The newline split never returns an empty part list. -/
theorem splitNL_ne_nil : ∀ l : List Char, splitNL l ≠ [] := by
  intro l
  induction l with
  | nil => simp [splitNL]
  | cons c rest ih =>
    simp only [splitNL]
    by_cases hc : c = '\n'
    · rw [if_pos hc]; simp
    · rw [if_neg hc]
      cases hs : splitNL rest with
      | nil => simp
      | cons p ps => simp

/-- Every character of every part of the newline split is a character of
the input. -/
theorem splitNL_chars : ∀ (l : List Char) (p : List Char) (c : Char),
    p ∈ splitNL l → c ∈ p → c ∈ l := by
  intro l
  induction l with
  | nil =>
    intro p c hp hc
    simp only [splitNL, List.mem_singleton] at hp
    subst hp
    cases hc
  | cons c0 rest ih =>
    intro p c hp hc
    simp only [splitNL] at hp
    by_cases h0 : c0 = '\n'
    · rw [if_pos h0] at hp
      rcases List.mem_cons.mp hp with h | h
      · subst h; cases hc
      · exact List.mem_cons_of_mem _ (ih p c h hc)
    · rw [if_neg h0] at hp
      cases hs : splitNL rest with
      | nil => exact absurd hs (splitNL_ne_nil rest)
      | cons q qs =>
        rw [hs] at hp
        rcases List.mem_cons.mp hp with h | h
        · subst h
          rcases List.mem_cons.mp hc with h | h
          · exact h ▸ List.mem_cons_self _ _
          · refine List.mem_cons_of_mem _ (ih q c ?_ h)
            rw [hs]; exact List.mem_cons_self _ _
        · refine List.mem_cons_of_mem _ (ih p c ?_ hc)
          rw [hs]; exact List.mem_cons_of_mem _ h

/-- A newline-free input splits into itself as the single part. -/
theorem splitNL_no_newline : ∀ l : List Char, '\n' ∉ l → splitNL l = [l] := by
  intro l
  induction l with
  | nil => intro _; rfl
  | cons c rest ih =>
    intro h
    have hc : c ≠ '\n' := fun he => h (he ▸ List.mem_cons_self _ _)
    have hrest : '\n' ∉ rest := fun hm => h (List.mem_cons_of_mem _ hm)
    simp only [splitNL]
    rw [if_neg hc, ih hrest]

/-- Stripping a whitespace-only string yields the empty string. -/
theorem pyStrip_allspace (l : List Char) (h : ∀ c ∈ l, pyIsSpace c = true) :
    pyStrip l = [] := by
  unfold pyStrip
  rw [List.dropWhile_eq_nil_iff.mpr h]
  simp

/-- The paragraph loop contributes nothing for whitespace-only paragraphs. -/
theorem wrapParas_allspace (f : TextFont) (w : Nat) :
    ∀ (paras : List (List Char)) (lines : List (List Char)),
    (∀ p ∈ paras, ∀ c ∈ p, pyIsSpace c = true) →
    wrapParas f w paras lines = lines := by
  intro paras
  induction paras with
  | nil => intro lines _; rfl
  | cons para rest ih =>
    intro lines h
    simp only [wrapParas]
    rw [if_pos (pyStrip_allspace para (h para (List.mem_cons_self _ _)))]
    exact ih lines (fun p hp => h p (List.mem_cons_of_mem _ hp))

/-- Stripping a run of the letter a is the identity. -/
theorem pyStrip_replicate_a (n : Nat) :
    pyStrip (List.replicate n 'a') = List.replicate n 'a' := by
  have hd : ∀ m : Nat, (List.replicate m 'a').dropWhile pyIsSpace
      = List.replicate m 'a' := by
    intro m
    cases m with
    | zero => rfl
    | succ k =>
      rw [List.replicate_succ]
      rw [List.dropWhile_cons_of_neg (by decide)]
  unfold pyStrip
  rw [hd, List.reverse_replicate, hd, List.reverse_replicate]

/-- Under the 10-pixel-per-character font with a 10-pixel budget, the greedy
fold closes a line at every further character. -/
theorem foldl_rep_a (n : Nat) :
    ∀ acc : List (List Char),
    (List.replicate n 'a').foldl (wrapStep tenWide 10) (acc, ['a'])
      = (acc ++ List.replicate n ['a'], ['a']) := by
  induction n with
  | zero => intro acc; simp
  | succ k ih =>
    intro acc
    rw [List.replicate_succ, List.foldl_cons]
    have hstep : wrapStep tenWide 10 (acc, ['a']) 'a'
        = (acc ++ [['a']], ['a']) := by
      simp [wrapStep, tenWide]
    rw [hstep, ih]
    simp [List.replicate_succ]

/-- Wrapping n copies of a at exactly one character per line yields n
lines. -/
theorem wrap_replicate_a (n : Nat) :
    wrapText (List.replicate n 'a') tenWide 10 = List.replicate n ['a'] := by
  cases n with
  | zero => rfl
  | succ k =>
    unfold wrapText
    rw [splitNL_no_newline _ (by
      intro h
      have := List.eq_of_mem_replicate h
      exact absurd this (by decide))]
    simp only [wrapParas]
    rw [pyStrip_replicate_a]
    rw [if_neg (by simp [List.replicate_succ])]
    have hpara : wrapParagraph tenWide 10 (List.replicate (k + 1) 'a')
        = List.replicate (k + 1) ['a'] := by
      unfold wrapParagraph
      rw [List.replicate_succ, List.foldl_cons]
      have hstep : wrapStep tenWide 10 ([], []) 'a' = ([], ['a']) := by
        simp [wrapStep, tenWide]
      rw [hstep, foldl_rep_a k []]
      simp [List.replicate_succ']
    rw [hpara]
    simp

/-- Normalized key points always form exactly three slots. -/
theorem normalizeKeyPoints_three (kps : List Str) :
    ∃ a b c, normalizeKeyPoints kps = [a, b, c] := by
  match kps with
  | [] => exact ⟨[], [], [], rfl⟩
  | [a] => exact ⟨a, [], [], rfl⟩
  | [a, b] => exact ⟨a, b, [], rfl⟩
  | a :: b :: c :: rest =>
    refine ⟨a, b, c, ?_⟩
    have h0 : 3 - (rest.length + 3) = 0 := by omega
    simp [normalizeKeyPoints, keyPointsAfterCall, h0]

/-- The enumerate-filter-map of the source equals the range-based filter of
the specification on any three slots. -/
theorem pointScenes_three (a b c : Str) :
    (([a, b, c].enum.filter (fun p => !p.2.isEmpty)).map
        (fun p => Scene.keyPoint (p.1 + 1)))
      = (List.range 3).filterMap (fun i =>
          if ([a, b, c].getD i []).isEmpty then none
          else some (Scene.keyPoint (i + 1))) := by
  have he : [a, b, c].enum = [(0, a), (1, b), (2, c)] := rfl
  have hr : List.range 3 = [0, 1, 2] := rfl
  rw [he, hr]
  cases hA : a.isEmpty <;> cases hB : b.isEmpty <;> cases hC : c.isEmpty <;>
    simp [List.filter, List.filterMap, hA, hB, hC]

/-- Total duration of a three-slot plan: 3 + 5 + 7 per kept key point + 3. -/
theorem totalDuration_three (a b c : Str) :
    totalDuration ([Scene.intro, Scene.title]
        ++ (([a, b, c].enum.filter (fun p => !p.2.isEmpty)).map
            (fun p => Scene.keyPoint (p.1 + 1)))
        ++ [Scene.cta])
      = 3 + 5 + 7 * (([a, b, c].filter (fun s => !s.isEmpty)).length : ℚ)
        + 3 := by
  have he : [a, b, c].enum = [(0, a), (1, b), (2, c)] := rfl
  rw [he]
  cases hA : a.isEmpty <;> cases hB : b.isEmpty <;> cases hC : c.isEmpty <;>
    simp [List.filter, hA, hB, totalDuration, sceneDuration,
      SCENE_LOGO_DURATION, SCENE_TITLE_DURATION, SCENE_POINT_DURATION,
      SCENE_CTA_DURATION, hC] <;> norm_num

/-!
Claim theorems.
-/

/-- Claim C1, amended: every line returned by the text-wrapping operation
measures at most `maxWidth` pixels under the font's metrics, except that a
line consisting of a single character may exceed `maxWidth` (a character
wider than the budget occupies a line of its own); `_wrap_text` has no
truncation step, so no ellipsis line arises. -/
theorem wrap_lines_fit_unless_single_char (t : List Char) (f : TextFont)
    (w : Nat) : ∀ l ∈ wrapText t f w, l.length = 1 ∨ f.width l ≤ w :=
  fun l hl => (wrapText_mem f w t l hl).2

/-- Witness for C1: the two-character line produced at a generous budget
satisfies the amended bound. -/
theorem wrap_lines_fit_unless_single_char_w :
    ("ab").toList.length = 1 ∨ tenWide.width (("ab").toList) ≤ 100 :=
  wrap_lines_fit_unless_single_char (("ab").toList) tenWide 100
    (("ab").toList) (by decide)

/-- Counterexample to C1 as stated: with a font whose every character is 10
pixels wide and `maxWidth = 1 > 0`, wrapping the one-character string yields
a line measuring 10 > 1 pixels. -/
theorem wrap_overflow_single_char_cex :
    0 < 1 ∧ wrapText (("a").toList) tenWide 1 = [("a").toList]
      ∧ ¬ tenWide.width (("a").toList) ≤ 1 :=
  ⟨by decide, by decide, by decide⟩

/-- Claim C2: the scene plan is the fixed order Intro, Title, KeyPoint(1),
KeyPoint(2), KeyPoint(3), CallToAction with exactly the key-point scenes
whose normalized slot is empty omitted and their displayed numerals
preserved; key points A, empty, C yield the 5 scenes with numerals 1 and 3,
and three empty slots yield the 3 mandatory scenes. -/
theorem scene_plan_suppresses_empty_key_points (kps : List Str) :
    scenePlan kps = scenePlanSpec (normalizeKeyPoints kps) ∧
    scenePlan [("A").toList, [], ("C").toList]
      = [Scene.intro, Scene.title, Scene.keyPoint 1, Scene.keyPoint 3,
         Scene.cta] ∧
    scenePlan [[], [], []] = [Scene.intro, Scene.title, Scene.cta] := by
  refine ⟨?_, by decide, by decide⟩
  obtain ⟨a, b, c, h⟩ := normalizeKeyPoints_three kps
  simp only [scenePlan, scenePlanSpec]
  rw [h, pointScenes_three]

/-- Claim C3: the total planned duration equals 3 (Intro) + 5 (Title) +
7 per non-empty normalized key point + 3 (CallToAction) seconds, and the
number k of non-empty normalized key points is at most 3; omitted key-point
scenes consume no duration. -/
theorem scene_plan_duration_invariant (kps : List Str) :
    totalDuration (scenePlan kps)
      = 3 + 5 + 7 * (nonEmptyKeyPointCount kps : ℚ) + 3 ∧
    nonEmptyKeyPointCount kps ≤ 3 := by
  obtain ⟨a, b, c, h⟩ := normalizeKeyPoints_three kps
  constructor
  · simp only [scenePlan, nonEmptyKeyPointCount]
    rw [h]
    exact totalDuration_three a b c
  · simp only [nonEmptyKeyPointCount]
    rw [h]
    have hle := List.length_filter_le (fun s => !List.isEmpty s) [a, b, c]
    simpa using hle

/-- Claim C4, evaluated at the failing input: because Python's Unicode word
class keeps CJK characters, `_slugify` returns the Japanese title (minus the
ideographic comma) rather than the documented fallback "article"; the ASCII
example behaves as claimed. -/
theorem slugify_keeps_cjk_at_failing_input :
    slugify 50 (("ドバイ不動産市場、2026年上半期も二桁成長を維持").toList)
      = ("ドバイ不動産市場2026年上半期も二桁成長を維持").toList ∧
    slugify 50 (("ドバイ不動産市場、2026年上半期も二桁成長を維持").toList)
      ≠ ("article").toList ∧
    slugify 50 (("Dubai Real-Estate Boom!!").toList)
      = ("dubai-real-estate-boom").toList :=
  ⟨by decide, by decide, by decide⟩

/-- Claim C5, amended: `_wrap_text` takes no maximum-line-count argument and
never truncates: the number of returned lines is unbounded — wrapping n
copies of a character at one character per line returns exactly n lines. -/
theorem wrap_line_count_unbounded (n : Nat) :
    (wrapText (List.replicate n 'a') tenWide 10).length = n := by
  rw [wrap_replicate_a]
  simp

/-- Counterexample to C5 as stated: the wrap of a two-character string
produces 2 lines, exceeding a maximum-line budget of 1, and no truncation or
ellipsis occurs. -/
theorem wrap_exceeds_max_lines_cex :
    (wrapText (("ab").toList) tenWide 10).length = 2 ∧
    ¬ (wrapText (("ab").toList) tenWide 10).length ≤ 1 :=
  ⟨by decide, by decide⟩

/-- Claim C6, amended: wrapping the empty string returns the empty list of
lines (no line at all), for every font and width budget. -/
theorem wrap_empty_input_returns_no_lines (f : TextFont) (w : Nat) :
    wrapText [] f w = [] := rfl

/-- Counterexample to C6 as stated: the wrap of the empty string is the
empty list, not a single empty line. -/
theorem wrap_empty_input_cex :
    wrapText [] tenWide 100 = [] ∧ wrapText [] tenWide 100 ≠ [[]] :=
  ⟨rfl, by decide⟩

/-- Claim C7, amended: the font resolver returns the first existing path of
the ordered Japanese candidate list, falling back to the English candidate
list, and returns the built-in fallback handle when no candidate exists (it
performs no filesystem scan); it is a total function (never raises), and the
resolved handle is cached under the (size, weight) key: a cached key is
answered from the cache unchanged, and a fresh resolution stores its result
under the key. -/
theorem font_resolution_chain (fsExists loadOk : String → Bool)
    (size : Nat) (bold : Bool) :
    (∀ p, findFont fsExists jpFontCandidates = some p →
        p ∈ jpFontCandidates ∧ fsExists p = true) ∧
    (∀ q, findFont fsExists enFontCandidates = some q →
        q ∈ enFontCandidates ∧ fsExists q = true) ∧
    (∀ p, findFont fsExists jpFontCandidates = some p → loadOk p = true →
        (getFont fsExists loadOk [] size bold).1
          = FontHandle.truetype p size) ∧
    (findFont fsExists jpFontCandidates = none →
      ∀ q, findFont fsExists enFontCandidates = some q → loadOk q = true →
        (getFont fsExists loadOk [] size bold).1
          = FontHandle.truetype q size) ∧
    (findFont fsExists jpFontCandidates = none →
      findFont fsExists enFontCandidates = none →
        (getFont fsExists loadOk [] size bold).1 = FontHandle.fallback) ∧
    (∀ (h : FontHandle) (cache : FontCache),
        cache.lookup (fontCacheKey size bold) = some h →
        getFont fsExists loadOk cache size bold = (h, cache)) ∧
    ((getFont fsExists loadOk [] size bold).2).lookup (fontCacheKey size bold)
      = some (getFont fsExists loadOk [] size bold).1 := by
  refine ⟨?_, ?_, ?_, ?_, ?_, ?_, ?_⟩
  · intro p hp
    unfold findFont at hp
    exact ⟨List.mem_of_find?_eq_some hp, List.find?_some hp⟩
  · intro q hq
    unfold findFont at hq
    exact ⟨List.mem_of_find?_eq_some hq, List.find?_some hq⟩
  · intro p hp hl
    simp only [getFont, List.lookup_nil, hp, hl]
    simp
  · intro hjp q hq hl
    simp only [getFont, List.lookup_nil, hjp, hq, hl]
    simp
  · intro hjp hen
    simp only [getFont, List.lookup_nil, hjp, hen]
  · intro h cache hc
    simp only [getFont, hc]
  · cases hjp : findFont fsExists jpFontCandidates with
    | some p =>
      by_cases hl : loadOk p = true
      · simp only [getFont, List.lookup_nil, hjp, hl]
        simp [List.lookup]
      · have hl' : loadOk p = false := by
          cases hb : loadOk p
          · rfl
          · exact absurd hb hl
        simp only [getFont, List.lookup_nil, hjp, hl']
        simp [List.lookup]
    | none =>
      cases hen : findFont fsExists enFontCandidates with
      | some q =>
        by_cases hl : loadOk q = true
        · simp only [getFont, List.lookup_nil, hjp, hen, hl]
          simp [List.lookup]
        · have hl' : loadOk q = false := by
            cases hb : loadOk q
            · rfl
            · exact absurd hb hl
          simp only [getFont, List.lookup_nil, hjp, hen, hl']
          simp [List.lookup]
      | none =>
        simp only [getFont, List.lookup_nil, hjp, hen]
        simp [List.lookup]

/-- Witness for C7: when exactly the first Japanese candidate exists and
loads, the resolver returns the truetype handle for that path; and when no
Japanese candidate exists but an English candidate does, the resolver
returns the truetype handle for the first existing English candidate. -/
theorem font_resolution_chain_w :
    (getFont fsHiragino (fun _ => true) [] 48 false).1
      = FontHandle.truetype
          ("/System/Library/Fonts/ヒラギノ角ゴシック W6.ttc") 48 ∧
    (getFont fsDejaVu (fun _ => true) [] 32 true).1
      = FontHandle.truetype
          ("/usr/share/fonts/truetype/dejavu/DejaVuSans-Bold.ttf") 32 :=
  ⟨(font_resolution_chain fsHiragino (fun _ => true) 48 false).2.2.1
    ("/System/Library/Fonts/ヒラギノ角ゴシック W6.ttc") (by decide) rfl,
   (font_resolution_chain fsDejaVu (fun _ => true) 32 true).2.2.2.1
    (by decide) ("/usr/share/fonts/truetype/dejavu/DejaVuSans-Bold.ttf")
    (by decide) rfl⟩

/-- Counterexample to C7 as stated: on a filesystem whose only font file is
a Gothic-named CJK font under a well-known font directory that is not in
either candidate list, the resolver returns the built-in fallback — no
recursive filesystem scan for CJK/Gothic keywords is performed. -/
theorem font_lookup_no_scan_cex :
    scanOracle ("/usr/share/fonts/NotoSansGothic-Bold.ttc") = true ∧
    ("/usr/share/fonts/NotoSansGothic-Bold.ttc" : String) ∉ jpFontCandidates ∧
    ("/usr/share/fonts/NotoSansGothic-Bold.ttc" : String) ∉ enFontCandidates ∧
    (getFont scanOracle (fun _ => true) [] 48 false).1 = FontHandle.fallback :=
  ⟨rfl, by decide, by decide, by decide⟩

/-- Claim C8: when encoding succeeds, `generate` returns the output path
with the over-ceiling flag computed from the byte size — in particular it
still returns the path (no exception) when the size exceeds the 50 MB
ceiling (52428800 bytes); the overage only sets the warning flag. -/
theorem size_ceiling_warning_nonfatal (path : List Char) (bytes : Nat) :
    generateFinalize path (Except.ok bytes)
      = Except.ok (path, decide (52428800 < bytes)) ∧
    (52428800 < bytes →
      generateFinalize path (Except.ok bytes) = Except.ok (path, true)) := by
  have h1 : generateFinalize path (Except.ok bytes)
      = Except.ok (path, decide (52428800 < bytes)) := by
    simp only [generateFinalize, fileSizeMB]
    congr 2
    rw [decide_eq_decide]
    rw [lt_div_iff₀ (by norm_num)]
    constructor
    · intro h
      exact_mod_cast h
    · intro h
      exact_mod_cast h
  refine ⟨h1, fun h => ?_⟩
  rw [h1]
  simp [h]

/-- Witness for C8: a 60 MB artifact (over the ceiling) is still returned
successfully with the warning flag set. -/
theorem size_ceiling_warning_nonfatal_w :
    generateFinalize (("2026-02-21_dubai.mp4").toList) (Except.ok 62914560)
      = Except.ok ((("2026-02-21_dubai.mp4").toList), true) :=
  (size_ceiling_warning_nonfatal (("2026-02-21_dubai.mp4").toList)
    62914560).2 (by decide)

/-- Claim C9, amended: `generate` mutates the caller's key_points list
exactly by the in-place padding: the original entries remain as a prefix,
the list afterwards has max(len, 3) entries, and a list that already has at
least 3 entries is returned unchanged (the truncation to 3 operates on an
internal copy). -/
theorem key_points_mutation_bound (kps : List Str) :
    (keyPointsAfterCall kps).take kps.length = kps ∧
    (keyPointsAfterCall kps).length = max kps.length 3 ∧
    (3 ≤ kps.length → keyPointsAfterCall kps = kps) := by
  refine ⟨?_, ?_, ?_⟩
  · unfold keyPointsAfterCall
    exact List.take_left kps _
  · unfold keyPointsAfterCall
    simp only [List.length_append, List.length_replicate]
    omega
  · intro h
    unfold keyPointsAfterCall
    have h0 : 3 - kps.length = 0 := by omega
    simp [h0]

/-- Witness for C9: a caller list that already has 3 entries is unchanged
when the call returns. -/
theorem key_points_mutation_bound_w :
    keyPointsAfterCall [("A").toList, ("B").toList, ("C").toList]
      = [("A").toList, ("B").toList, ("C").toList] :=
  (key_points_mutation_bound [("A").toList, ("B").toList, ("C").toList]).2.2
    (by decide)

/-- Counterexample to C9 as stated: passing the one-element list [A] leaves
the caller's list as [A, empty, empty] after the call — the caller-supplied
list object is not unchanged. -/
theorem generate_mutates_short_key_points_cex :
    keyPointsAfterCall [("A").toList] = [("A").toList, [], []] ∧
    keyPointsAfterCall [("A").toList] ≠ [("A").toList] :=
  ⟨rfl, by decide⟩

/-- Claim C10: every line returned by `_wrap_text` is a non-empty string,
and an input consisting solely of whitespace yields the empty list of lines
(whitespace-only paragraphs contribute no output line). -/
theorem wrap_returns_no_blank_lines (t : List Char) (f : TextFont) (w : Nat) :
    (∀ l ∈ wrapText t f w, l ≠ []) ∧
    ((∀ c ∈ t, pyIsSpace c = true) → wrapText t f w = []) := by
  constructor
  · exact fun l hl => (wrapText_mem f w t l hl).1
  · intro h
    unfold wrapText
    exact wrapParas_allspace f w (splitNL t) []
      (fun p hp c hc => h c (splitNL_chars t p c hp hc))

/-- Witness for C10: the whitespace-only input of two spaces, a newline and
a tab wraps to the empty list of lines. -/
theorem wrap_returns_no_blank_lines_w :
    wrapText (("  \n\t").toList) tenWide 50 = [] :=
  (wrap_returns_no_blank_lines (("  \n\t").toList) tenWide 50).2 (by decide)
